import Mathlib

/-!
Verification of the tutorIS knowledge-extraction and hybrid-retrieval engine.

This file gives a shallow embedding, in Lean 4, of the parts of the tutorIS
repository that the verified properties talk about:

* the semantic router (src/rag_engine/router/semantic_router.py),
* the top-level answer orchestration (src/rag_engine/engine.py),
* the anchor search and graph traversal (src/rag_engine/retrieval/graph_retriever.py),
* the pruning stage (src/rag_engine/retrieval/graph_organizer.py),
* the per-fragment graph extraction with retry (src/ingest.py, process_chunk_graph),
* the entity resolver (src/entity_resolution.py),
* the ingestion registry (src/ingestion/registry.py).

External collaborators (the LLM service, the embedding service, the vector and
graph stores) are modelled as oracle functions returning Except values, so that
every possible failure of an external call is quantified over.  Python floats
are modelled as exact rationals, and the stable Python list sort is modelled by
the stable insertion sort.  Python exceptions are modelled by Except: a
try/except block in the source becomes a match on the Except value, and code
that is not guarded propagates the error.
-/

/- ------------------------------------------------------------------ -/

/- Character-level string utilities (models of Python str operations)  -/

/- ------------------------------------------------------------------ -/

/-- Whether the first list is a prefix of the second (boolean, structural). -/
def isPre : List Char → List Char → Bool
  | [], _ => true
  | _ :: _, [] => false
  | a :: as, b :: bs => a == b && isPre as bs

/-- Whether the needle occurs as a contiguous sublist of the haystack. -/
def subIn (needle : List Char) : List Char → Bool
  | [] => isPre needle []
  | c :: t => isPre needle (c :: t) || subIn needle t

/-- Model of the Python substring test: pat in s. -/
def strContains (s pat : String) : Bool := subIn pat.toList s.toList

/-- Model of Python str.upper (character-wise). -/
def upperStr (s : String) : String := String.mk (s.toList.map Char.toUpper)

/-- Model of Python str.lower (character-wise). -/
def lowerStr (s : String) : String := String.mk (s.toList.map Char.toLower)

/-- Model of Python str.strip on a character list. -/
def trimCharList (s : List Char) : List Char :=
  ((s.dropWhile Char.isWhitespace).reverse.dropWhile Char.isWhitespace).reverse

/-- Model of Python str.strip. -/
def stripStr (s : String) : String := String.mk (trimCharList s.toList)

/- ------------------------------------------------------------------ -/

/- SemanticRouter (src/rag_engine/router/semantic_router.py)           -/

/- ------------------------------------------------------------------ -/

/-- The three routing outcomes of SemanticRouter (class Route). -/
inductive Route where
  | VECTOR
  | GRAPH
  | UNKNOWN
deriving DecidableEq, Repr

/-- Tail of SemanticRouter.route: the classifier response is upper-cased and
stripped, then scanned for the two route tokens; the VECTOR test comes first,
then GRAPH, and anything else yields UNKNOWN. -/
def route (decision : String) : Route :=
  let d := stripStr (upperStr decision)
  if strContains d ("VECTOR") then Route.VECTOR
  else if strContains d ("GRAPH") then Route.GRAPH
  else Route.UNKNOWN

/- ------------------------------------------------------------------ -/

/- RAGEngine.answer (src/rag_engine/engine.py)                         -/

/- ------------------------------------------------------------------ -/

/-- The external calls the engine can make, recorded in a call log.
genText is one text-generation request to the LLM client; vretrieveC is one
vector retrieval; gqueryC is one full graph-retrieval query. -/
inductive ECall where
  | genText
  | vretrieveC
  | gqueryC
deriving DecidableEq, Repr

/-- Oracles for the external services the engine composes.  Each raw call may
fail (Except.error), modelling a raised exception in the external client. -/
structure EngineOracles where
  gen : String → Except Unit String
  vr : String → Except Unit (List String)
  gq : String → Except Unit (String × String)

/-- The router prompt built by SemanticRouter.route.  The template wording is
an external prompt (out of scope per the spec); only the fact that the user
query is embedded in a fixed prompt matters to the verified properties. -/
def routerPrompt (q : String) : String := "ROUTER_PROMPT " ++ q

/-- The vector-path generation prompt of RAGEngine.answer; wording elided as
for routerPrompt. -/
def vectorPrompt (ctx q : String) : String := "VECTOR_PROMPT " ++ ctx ++ " " ++ q

/-- GeminiClient.generate_text: the raw call is guarded by try/except; on
success the text is stripped, on any exception the empty string is returned.
The call is recorded in the log either way. -/
def generateText (gen : String → Except Unit String) (prompt : String) :
    String × List ECall :=
  match gen prompt with
  | Except.ok t => (stripStr t, [ECall.genText])
  | Except.error _ => ("", [ECall.genText])

/-- VectorRetriever.retrieve: the body is guarded by try/except and returns
the empty list on any exception. -/
def retrieveDocs (vr : String → Except Unit (List String)) (q : String) :
    List String × List ECall :=
  match vr q with
  | Except.ok docs => (docs, [ECall.vretrieveC])
  | Except.error _ => ([], [ECall.vretrieveC])

/-- The fixed apology returned by GraphRetriever.query when its body raises. -/
def graphFailMsg : String :=
  "Ocurrió un error técnico al consultar el grafo de conocimiento."

/-- GraphRetriever.query at the top level: the whole body (anchoring,
traversal, generation) is guarded by one try/except which returns a fixed
apology with empty context on any exception. -/
def graphQueryTop (gq : String → Except Unit (String × String)) (q : String) :
    (String × String) × List ECall :=
  match gq q with
  | Except.ok p => (p, [ECall.gqueryC])
  | Except.error _ => ((graphFailMsg, ""), [ECall.gqueryC])

/-- RAGEngine._evaluate_response: one more generation call, fully guarded
(JSON parse failures and client failures are both caught and only logged); it
never changes the response.  Only the call is recorded. -/
def evaluateResponse (gen : String → Except Unit String) (prompt : String) :
    List ECall :=
  (generateText gen prompt).2

/-- The fixed clarification message of the UNKNOWN fallback branch of
RAGEngine.answer. -/
def clarificationMsg : String :=
  "Lo siento, no estoy seguro de cómo clasificar tu pregunta. ¿Podrías reformularla?"

/-- The route RAGEngine.answer obtains for a query: SemanticRouter.route is a
single classification call through GeminiClient.generate_text. -/
def routeD (o : EngineOracles) (q : String) : Route :=
  route (generateText o.gen (routerPrompt q)).1

/-- RAGEngine.answer.  The result is the final response string together with
the log of external calls; the Except layer records whether an exception
escapes to the caller.  useSelfRag models the USE_SELF_RAG flag. -/
def answer (o : EngineOracles) (useSelfRag : Bool) (q : String) :
    Except Unit (String × List ECall) :=
  let l1 := (generateText o.gen (routerPrompt q)).2
  match routeD o q with
  | Route.GRAPH =>
    let (pair, l2) := graphQueryTop o.gq q
    let lEval := if useSelfRag then evaluateResponse o.gen (pair.2) else []
    Except.ok (pair.1, l1 ++ l2 ++ lEval)
  | Route.VECTOR =>
    let (docs, l2) := retrieveDocs o.vr q
    let ctx := String.intercalate "\n\n" docs
    let (resp, l3) := generateText o.gen (vectorPrompt ctx q)
    let lEval := if useSelfRag then evaluateResponse o.gen ctx else []
    Except.ok (resp, l1 ++ l2 ++ l3 ++ lEval)
  | Route.UNKNOWN =>
    Except.ok (clarificationMsg, l1)

/- ------------------------------------------------------------------ -/

/- IngestionRegistry.register_file (src/ingestion/registry.py)         -/

/- ------------------------------------------------------------------ -/

/-- The metadata dictionary passed to register_file: the two optional keys it
reads.  A missing key is modelled by none. -/
structure RegMeta where
  processed_at : Option String
  chunks_count : Option Nat
deriving DecidableEq, Repr

/-- The record stored per path by register_file: exactly the three keys hash,
processed_at and chunks_count. -/
structure RegEntry where
  hash : String
  processed_at : String
  chunks_count : Nat
deriving DecidableEq, Repr

/-- Registry state: the JSON mapping from relative path to its record. -/
def RegState := List (String × RegEntry)

/-- Lookup of a path in the registry state. -/
def regLookup (st : RegState) (name : String) : Option RegEntry :=
  (List.find? (fun p => p.1 == name) st).map (fun p => p.2)

/-- Python dict assignment: replace the binding in place or append it. -/
def regSet : RegState → String → RegEntry → RegState
  | [], n, e => [(n, e)]
  | (k, v) :: t, n, e => if k = n then (n, e) :: t else (k, v) :: regSet t n e

/-- IngestionRegistry.register_file.  Called without a metadata dictionary
(metadata = None), the attribute access metadata.get raises (AttributeError),
modelled by Except.error.  With a dictionary, the entry stores the hash, the
stringified processed_at (defaulting to the empty string) and chunks_count
(defaulting to 0), and save_state persists synchronously before returning; the
Bool in the result records that the save happened. -/
def registerFile (st : RegState) (name hash : String) (md : Option RegMeta) :
    Except Unit (RegState × Bool) :=
  match md with
  | none => Except.error ()
  | some m =>
      Except.ok (regSet st name
        { hash := hash
          processed_at := m.processed_at.getD ""
          chunks_count := m.chunks_count.getD 0 }, true)

/- ------------------------------------------------------------------ -/

/- process_chunk_graph retry policy (src/ingest.py)                    -/

/- ------------------------------------------------------------------ -/

/-- The error classification of the except branch of process_chunk_graph. -/
inductive ErrKind where
  | rate
  | lockE
  | other
deriving DecidableEq, Repr

/-- Classification of a caught exception message, in source order: a
quota/rate-limit signal is a message containing 429 or RESOURCE_EXHAUSTED;
otherwise a transient store conflict is a message containing DeadlockDetected
or TransientError, or containing lock after lower-casing; anything else is
non-recoverable. -/
def classifyError (msg : String) : ErrKind :=
  if strContains msg ("429") || strContains msg ("RESOURCE_EXHAUSTED") then
    ErrKind.rate
  else if strContains msg ("DeadlockDetected") || strContains msg ("TransientError")
      || strContains (lowerStr msg) ("lock") then
    ErrKind.lockE
  else
    ErrKind.other

/-- One iteration body of process_chunk_graph as an oracle: attempt number in,
and either the successful return value (1 when the fragment produced graph
data, 0 otherwise) or the message of the raised exception. -/
def ChunkStep := Nat → Except String Nat

/-- The while loop of process_chunk_graph: fuel counts the remaining allowed
attempts (max_retries minus attempt, so the loop condition attempt less than
max_retries is fuel positive).  On a rate-limit signal it sleeps
30 * (attempt + 1) seconds and retries; on a lock signal it sleeps
1 * (attempt + 1) and retries; on any other error it breaks.  When the fuel
runs out the loop falls through and the function returns 0.  The result pairs
the returned value with the list of sleep durations performed. -/
def processChunkLoop (step : ChunkStep) : Nat → Nat → Nat × List Nat
  | _, 0 => (0, [])
  | attempt, fuel + 1 =>
    match step attempt with
    | Except.ok n => (n, [])
    | Except.error msg =>
      match classifyError msg with
      | ErrKind.rate =>
        let w := 30 * (attempt + 1)
        let r := processChunkLoop step (attempt + 1) fuel
        (r.1, w :: r.2)
      | ErrKind.lockE =>
        let w := 1 * (attempt + 1)
        let r := processChunkLoop step (attempt + 1) fuel
        (r.1, w :: r.2)
      | ErrKind.other => (0, [])

/-- process_chunk_graph: max_retries = 3, starting at attempt 0. -/
def processChunkGraph (step : ChunkStep) : Nat × List Nat :=
  processChunkLoop step 0 3

/-- The per-file aggregation of fragment results (sum of the values returned
by process_chunk_graph over a file's chunks, as computed from the worker pool
results in main). -/
def chunksWithGraph (steps : List ChunkStep) : Nat :=
  (steps.map (fun s => (processChunkGraph s).1)).sum

/- ------------------------------------------------------------------ -/

/- Node enrichment and merge-write (src/ingest.py, lines 202-259)      -/

/- ------------------------------------------------------------------ -/

/-- Auxiliary splitter: accumulates the current segment (reversed) and cuts at
each occurrence of the separator character. -/
def splitCharAux (c : Char) : List Char → List Char → List (List Char)
  | [], acc => [acc.reverse]
  | x :: xs, acc =>
    if x == c then acc.reverse :: splitCharAux c xs []
    else splitCharAux c xs (x :: acc)

/-- Model of the Python split on the one-character separator string used for
accumulated definitions. -/
def splitSegs (s : String) : List String :=
  (splitCharAux '|' s.toList []).map String.mk

/-- Number of definition segments stored on a node (0 when no definition). -/
def segCount : Option String → Nat
  | none => 0
  | some d => (splitSegs d).length

/-- The graph-node properties touched by the enrichment block: accumulated
definition, embedding, and subject tag (asignatura).  none models a Neo4j
null. -/
structure NodeState where
  definition : Option String
  embedding : List ℚ
  asignatura : Option String
deriving DecidableEq, Repr

/-- The similarity threshold of the definition deduplication (0.85). -/
def defDupThreshold : ℚ := mkRat 17 20

/-- Python truthiness of the optional new definition: None and the empty
string are both falsy. -/
def truthyStr : Option String → Bool
  | none => false
  | some s => !(s == "")

/-- The should_append computation: the stored definition (if the node exists,
has the key, and it is non-empty) is split on the separator, each segment is
stripped, and the new definition is compared against it with the similarity
oracle (difflib SequenceMatcher ratio, an external pure function); a ratio
strictly above the threshold vetoes the append. -/
def computeShouldAppend (ratioFn : String → String → ℚ) (existing : Option String)
    (nd : String) : Bool :=
  match existing with
  | none => true
  | some d =>
    if d == "" then true
    else !((splitSegs d).any (fun seg => decide (ratioFn nd (stripStr seg) > defDupThreshold)))

/-- The MERGE ... ON CREATE ... ON MATCH cypher of process_chunk_graph: on
creation the node gets the new definition, the embedding and the subject tag;
on match the embedding is overwritten unconditionally, the definition is
replaced when null or empty, appended (with the separator) when should_append
holds and it is not already contained, and kept otherwise; the subject tag
accumulates comma-joined. -/
def mergeWrite (st : Option NodeState) (nd : String) (emb : List ℚ) (asig : String)
    (sa : Bool) : NodeState :=
  match st with
  | none => ⟨some nd, emb, some asig⟩
  | some s =>
    let d' : Option String :=
      match s.definition with
      | none => some nd
      | some d =>
        if d == "" then some nd
        else if sa && !(strContains d nd) then some (d ++ " | " ++ nd) else some d
    let a' : Option String :=
      match s.asignatura with
      | none => some asig
      | some a =>
        if a == "" then some asig
        else if !(strContains a asig) then some (a ++ ", " ++ asig) else some a
    ⟨d', emb, a'⟩

/-- The per-node enrichment step of process_chunk_graph (src/ingest.py lines
202-259) in the case where the dedup read succeeds: the embedding is computed
from the node id, extended with a colon and the new definition when one was
extracted (Python truthiness: an empty definition counts as absent); when a
new definition is present the dedup check runs against the current stored
definition and the merge-write query executes; otherwise these lines leave the
stored node untouched (the node is still persisted later by
add_graph_documents, outside this block).  The full model, with the guarded
dedup read that may fail, is enrichNodeE; this function is its
read-succeeds slice. -/
def enrichNode (embedQ : String → List ℚ) (ratioFn : String → String → ℚ)
    (st : Option NodeState) (id : String) (newDef : Option String) (asig : String) :
    Option NodeState :=
  let textRep := if truthyStr newDef then id ++ ": " ++ newDef.getD "" else id
  let emb := embedQ textRep
  if truthyStr newDef then
    let nd := newDef.getD ""
    let sa := computeShouldAppend ratioFn (st.bind (fun s => s.definition)) nd
    some (mergeWrite st nd emb asig sa)
  else st

/-- The per-node enrichment step of process_chunk_graph with the dedup read
modelled as fallible: the read of the stored definition (ingest.py lines
217-229) sits in a try/except whose except branch is pass, so when the read
raises (readFails), should_append stays True and the merge-write appends even
a highly similar definition; when the read succeeds it returns the definition
actually stored on the node and the dedup check runs as in enrichNode. -/
def enrichNodeE (embedQ : String → List ℚ) (ratioFn : String → String → ℚ)
    (readFails : Bool) (st : Option NodeState) (id : String) (newDef : Option String)
    (asig : String) : Option NodeState :=
  let textRep := if truthyStr newDef then id ++ ": " ++ newDef.getD "" else id
  let emb := embedQ textRep
  if truthyStr newDef then
    let nd := newDef.getD ""
    let sa := if readFails then true
      else computeShouldAppend ratioFn (st.bind (fun s => s.definition)) nd
    some (mergeWrite st nd emb asig sa)
  else st

/-- Consistency of a written node with the per-label vector index: the stored
embedding is the embedding of the text id, colon, stored definition. -/
def embConsistent (embedQ : String → List ℚ) (id : String) (st : NodeState) : Prop :=
  ∃ d, st.definition = some d ∧ st.embedding = embedQ (id ++ ": " ++ d)

/- ------------------------------------------------------------------ -/

/- GraphRetriever._traverse_graph (graph_retriever.py, lines 105-140)  -/

/- ------------------------------------------------------------------ -/

/-- A stored relationship of the property graph: source node id, relationship
type, target node id.  The traversal query returns one such record (with node
properties projected) per distinct relationship on a matched path. -/
structure Edge where
  src : String
  typ : String
  tgt : String
deriving DecidableEq, Repr

/-- The semantic relationship whitelist of the traversal cypher pattern. -/
def semanticRels : List String :=
  ["USA", "GENERA", "IMPLEMENTA", "COMPONE", "REQUISITO_PARA", "ASOCIADO_A"]

/-- One undirected traversal step from node x: any whitelisted relationship
incident to x, taken forwards or backwards, together with the node reached
(cypher pattern with an undirected relationship). -/
def stepsFrom (edges : List Edge) (x : String) : List (Edge × String) :=
  edges.flatMap (fun e =>
    if e.typ ∈ semanticRels then
      (if e.src = x then [(e, e.tgt)] else []) ++ (if e.tgt = x then [(e, e.src)] else [])
    else [])

/-- All paths of the variable-length pattern from an anchor node n: length 1
or 2, every relationship whitelisted, cypher relationship uniqueness inside a
path, and the endpoint m distinct from n (the WHERE n-not-equal-m filter; the
enumeration order stands in for the unspecified Neo4j expansion order). -/
def pathsFromAnchor (edges : List Edge) (n : String) : List (List Edge) :=
  (stepsFrom edges n).flatMap (fun s =>
    (if n ≠ s.2 then [[s.1]] else []) ++
    (stepsFrom edges s.2).flatMap (fun s2 =>
      if s2.1 ≠ s.1 ∧ n ≠ s2.2 then [[s.1, s2.1]] else []))

/-- The paths the query considers: anchors are the nodes whose id is in the
anchor list, and the WITH path LIMIT 100 clause caps the number of distinct
paths considered. -/
def consideredPaths (nodes : List String) (edges : List Edge)
    (anchorNames : List String) : List (List Edge) :=
  ((nodes.filter (fun n => n ∈ anchorNames)).flatMap (pathsFromAnchor edges)).take 100

/-- GraphRetriever._traverse_graph: empty anchor list short-circuits to the
empty result; otherwise the considered paths are unwound into their
relationships and the returned triples are deduplicated (RETURN DISTINCT). -/
def traverseGraph (nodes : List String) (edges : List Edge)
    (anchorNames : List String) : List Edge :=
  if anchorNames = [] then []
  else ((consideredPaths nodes edges anchorNames).flatMap id).dedup

/- ------------------------------------------------------------------ -/

/- EntityResolver (src/entity_resolution.py)                           -/

/- ------------------------------------------------------------------ -/

/-- A graph node as seen by the entity resolver: id, label, and its own
properties. -/
structure RNode where
  id : String
  label : String
  props : List (String × String)
deriving DecidableEq, Repr

/-- The graph state the resolver rewrites: nodes and relationships. -/
structure ResGraph where
  nodes : List RNode
  rels : List Edge
deriving DecidableEq, Repr

/-- Re-pointing of one relationship endpoint from the duplicate to the
canonical node. -/
def reAim (keepId mergeId : String) (e : Edge) : Edge :=
  ⟨if e.src = mergeId then keepId else e.src, e.typ,
   if e.tgt = mergeId then keepId else e.tgt⟩

/-- Modelled from the spec: the external graph-store refactoring call
apoc.refactor.mergeNodes on the pair (keep, merge) with properties discard and
mergeRels true, invoked by EntityResolver._merge_nodes.  The spec (section
4.6) states that on a merge the duplicate node and its own properties are
discarded and its relationships are re-pointed to the canonical node; both
MATCH patterns of the cypher must bind for the call to act, otherwise the
query matches nothing and the graph is unchanged. -/
def mergeNodes (g : ResGraph) (keepId mergeId : String) : ResGraph :=
  if (g.nodes.any (fun n => n.id == keepId)) && (g.nodes.any (fun n => n.id == mergeId)) then
    { nodes := g.nodes.filter (fun n => !(n.id == mergeId)),
      rels := g.rels.map (reAim keepId mergeId) }
  else g

/-- The per-pair body of EntityResolver.resolve_duplicates (lines 104-115):
the Levenshtein-style ratio (thefuzz fuzz.ratio, an external pure function
modelled as an oracle returning an integer percentage) is computed on the
lower-cased ids; strictly above the threshold the semantic-equivalence check
runs, and on a yes the pair is merged with the canonical node chosen as the
one with the shorter id (ties keep the first) and the other as duplicate. -/
def resolvePair (fr : String → String → Nat) (validate : String → String → String → Bool)
    (threshold : Nat) (g : ResGraph) (a b label : String) : ResGraph :=
  if fr (lowerStr a) (lowerStr b) > threshold then
    if validate a b label then
      let canonical := if a.length ≤ b.length then a else b
      let duplicate := if canonical = a then b else a
      mergeNodes g canonical duplicate
    else g
  else g

/- ------------------------------------------------------------------ -/

/- GraphOrganizer._prune_by_relevance (graph_organizer.py, 29-76)      -/

/- ------------------------------------------------------------------ -/

/-- Exact rational dot product (numpy dot over the modelled float vectors). -/
def dotQ (u v : List ℚ) : ℚ := (List.zipWith (fun a b => a * b) u v).sum

/-- Exact rational square root used to model the float norm: exact whenever
the radicand is the square of a rational (as in the concrete witnesses, which
use unit basis vectors); expressed with divInt to stay kernel-computable. -/
def ratSqrt (q : ℚ) : ℚ := Rat.divInt (Nat.sqrt q.num.toNat) (Nat.sqrt q.den)

/-- Exact rational division expressed with divInt (kernel-computable,
extensionally equal to division when the divisor is nonzero). -/
def qdiv (a b : ℚ) : ℚ := Rat.divInt (a.num * b.den) (a.den * b.num)

/-- The cosine-similarity computation of _prune_by_relevance: norms of the
query and target vectors; zero similarity when either norm vanishes,
dot product over the product of norms otherwise. -/
def simQ (u v : List ℚ) : ℚ :=
  let nq := ratSqrt (dotQ u u)
  let nt := ratSqrt (dotQ v v)
  if nq = 0 ∨ nt = 0 then 0 else qdiv (dotQ u v) (nq * nt)

/-- A node as projected by the traversal cypher into a triple endpoint. -/
structure TNode where
  id : String
  label : String
  definition : Option String
  asignatura : Option String
  embedding : Option (List ℚ)
deriving DecidableEq, Repr

/-- A raw triple handed to the organizer. -/
structure Triple where
  source : TNode
  typ : String
  target : TNode
deriving DecidableEq, Repr

/-- The pre-computed target embedding, under Python truthiness: a missing or
empty stored embedding triggers the on-the-fly fallback. -/
def targetEmbOf (t : Triple) : Option (List ℚ) :=
  match t.target.embedding with
  | none => none
  | some e => if e = [] then none else some e

/-- The fallback text embedded when no stored embedding exists: the f-string
of id and definition (a Neo4j null definition renders as the Python text None,
since the key is present with value None and the dict get default does not
apply); a text that strips to empty makes the loop skip the triple. -/
def fbTextOf (t : Triple) : Option String :=
  let txt := t.target.id ++ " " ++
    (match t.target.definition with | none => "None" | some s => s)
  if trimCharList txt.toList = [] then none else some txt

/-- The scoring loop of _prune_by_relevance: stored embeddings are reused,
otherwise the fallback text is embedded (a failure of the embedding service
raises and aborts the whole loop); triples with empty fallback text are
skipped; each scored triple is appended as a (similarity, triple) pair. -/
def scoreTriples (embed : String → Except Unit (List ℚ)) (qe : List ℚ) :
    List Triple → Except Unit (List (ℚ × Triple))
  | [] => Except.ok []
  | t :: ts =>
    match targetEmbOf t with
    | some te =>
      match scoreTriples embed qe ts with
      | Except.ok rest => Except.ok ((simQ qe te, t) :: rest)
      | Except.error e => Except.error e
    | none =>
      match fbTextOf t with
      | none => scoreTriples embed qe ts
      | some txt =>
        match embed txt with
        | Except.ok te =>
          match scoreTriples embed qe ts with
          | Except.ok rest => Except.ok ((simQ qe te, t) :: rest)
          | Except.error e => Except.error e
        | Except.error e => Except.error e

/-- The body of the try block of _prune_by_relevance: embed the question, then
score every triple. -/
def pruneScored (embed : String → Except Unit (List ℚ)) (q : String)
    (ts : List Triple) : Except Unit (List (ℚ × Triple)) :=
  match embed q with
  | Except.ok qe => scoreTriples embed qe ts
  | Except.error e => Except.error e

/-- GraphOrganizer._prune_by_relevance: on success the scored triples are
stably sorted by similarity descending and the top topN survive; on any
exception the except branch returns the first topN triples of the input,
unsorted and unscored, so the retrieval flow is not broken. -/
def pruneByRelevance (embed : String → Except Unit (List ℚ)) (q : String)
    (ts : List Triple) (topN : Nat) : List Triple :=
  match pruneScored embed q ts with
  | Except.ok scored =>
    ((List.insertionSort (fun a b : ℚ × Triple => b.1 ≤ a.1) scored).take topN).map
      (fun p => p.2)
  | Except.error _ => ts.take topN

/-- How a triple obtained its score: from its stored embedding, or from a
successful embedding of its fallback text. -/
def scoreMatches (embed : String → Except Unit (List ℚ)) (qe : List ℚ)
    (t : Triple) (c : ℚ) : Prop :=
  (∃ te, targetEmbOf t = some te ∧ c = simQ qe te) ∨
  (targetEmbOf t = none ∧
    ∃ txt te, fbTextOf t = some txt ∧ embed txt = Except.ok te ∧ c = simQ qe te)

/-- A triple whose target carries a stored embedding (used by the C7
counterexample as a filler that scores without an embedding call). -/
def c7Good (i : Nat) : Triple :=
  ⟨⟨"s", "L", none, none, none⟩, "USA", ⟨"t" ++ toString i, "L", some "d", none, some [1]⟩⟩

/-- A triple whose target has no stored embedding, so the organizer must embed
its fallback text. -/
def c7Bad : Triple :=
  ⟨⟨"s", "L", none, none, none⟩, "USA", ⟨"bad", "L", some "d", none, none⟩⟩

/-- Sixteen triples: fifteen scorable ones followed by the failing one. -/
def c7Ts : List Triple := (List.range 15).map c7Good ++ [c7Bad]

/-- An embedding oracle that fails exactly on the failing triple's fallback
text. -/
def c7Embed : String → Except Unit (List ℚ) :=
  fun s => if s = "bad d" then Except.error () else Except.ok [1]

/- ------------------------------------------------------------------ -/

/- GraphRetriever._get_anchors (graph_retriever.py, lines 64-103)      -/

/- ------------------------------------------------------------------ -/

/-- A row returned by the per-label vector index query: node id, labels,
definition and similarity score. -/
structure AnchorRow where
  name : String
  labels : List String
  defn : String
  score : ℚ
deriving DecidableEq, Repr

/-- The four ontology labels whose indices the anchor search queries. -/
def anchorLabels : List String :=
  ["ConceptoTeorico", "Metodologia", "Tecnologia", "Artefacto"]

/-- The anchor score threshold (0.40) of the strict comparison in
_get_anchors. -/
def anchorThreshold : ℚ := mkRat 2 5

/-- The external calls _get_anchors makes: one question embedding, and one
index query per label. -/
inductive RCall where
  | embedCall : String → RCall
  | vqueryCall : String → RCall
deriving DecidableEq, Repr

/-- Whether a retrieval call is an embedding call. -/
def isEmbedCall : RCall → Bool
  | RCall.embedCall _ => true
  | RCall.vqueryCall _ => false

/-- The rows obtained for one label: a failing index query is caught by the
inner try/except and contributes nothing (continue). -/
def anchorRowsOf (vq : String → List ℚ → Nat → Except Unit (List AnchorRow))
    (emb : List ℚ) (k : Nat) (label : String) : List AnchorRow :=
  match vq label emb k with
  | Except.ok rows => rows
  | Except.error _ => []

/-- The merged candidate list: for each of the four labels, the rows whose
score is strictly above the threshold. -/
def anchorCandidates (vq : String → List ℚ → Nat → Except Unit (List AnchorRow))
    (emb : List ℚ) (k : Nat) : List AnchorRow :=
  anchorLabels.flatMap (fun label =>
    (anchorRowsOf vq emb k label).filter (fun r => decide (anchorThreshold < r.score)))

/-- GraphRetriever._get_anchors: the question is embedded once (a failure of
the embedding call is caught by the outer try/except and yields no anchors);
each label index is queried with the embedding and k; candidates above the
threshold are merged, stably sorted by score descending, and cut to the top k.
The second component logs the external calls made. -/
def getAnchors (embed : String → Except Unit (List ℚ))
    (vq : String → List ℚ → Nat → Except Unit (List AnchorRow))
    (q : String) (k : Nat) : List AnchorRow × List RCall :=
  match embed q with
  | Except.error _ => ([], [RCall.embedCall q])
  | Except.ok emb =>
    ((List.insertionSort (fun a b : AnchorRow => b.score ≤ a.score)
        (anchorCandidates vq emb k)).take k,
     RCall.embedCall q :: anchorLabels.map RCall.vqueryCall)

/-- A node stored in the modelled per-label vector index. -/
structure NodeEntry where
  name : String
  label : String
  defn : String
  embedding : List ℚ
deriving DecidableEq, Repr

/-- Modelled from the spec: the cosine similarity score of the external
per-label vector index (GraphStore collaborator; the indices are created with
the cosine similarity function and the score is the cosine normalized into the
unit interval).  The float square root is modelled by the exact rational
square root, which is exact on the diagonal comparison of a vector with
itself — the only case the verified property evaluates. -/
def neoScore (u v : List ℚ) : ℚ :=
  if dotQ u u * dotQ v v = 0 then 0
  else qdiv (1 + qdiv (dotQ u v) (ratSqrt (dotQ u u * dotQ v v))) 2

/-- Modelled from the spec: the per-label vector index query
(db.index.vector.queryNodes): the k best-scoring nodes of the label, scored
against the query embedding, in descending score order. -/
def vectorQueryNodes (store : List NodeEntry) (label : String) (emb : List ℚ)
    (k : Nat) : List AnchorRow :=
  (List.insertionSort (fun a b : AnchorRow => b.score ≤ a.score)
    ((store.filter (fun n => n.label == label)).map
      (fun n => ⟨n.name, [n.label], n.defn, neoScore emb n.embedding⟩))).take k

/-- The modelled index as an oracle for getAnchors (never raises). -/
def neoVq (store : List NodeEntry) :
    String → List ℚ → Nat → Except Unit (List AnchorRow) :=
  fun label emb k => Except.ok (vectorQueryNodes store label emb k)

/-- The one-node store of the anchor witness. -/
def c1Store : List NodeEntry := [⟨"Scrum", "Metodologia", "Marco de trabajo agil", [1]⟩]

/-- The embedding oracle of the anchor witness: the question embeds to the
stored node's own embedding. -/
def c1Embed : String → Except Unit (List ℚ) := fun _ => Except.ok [1]

/- ================================================================== -/
/- Theorems                                                            -/
/- ================================================================== -/

/-- C2 counterexample: a classifier response containing both route tokens is
not an unambiguous occurrence of one of them, yet route returns VECTOR, not
UNKNOWN (the VECTOR test is applied first). -/
theorem C2_route_ambiguous_counterexample :
    strContains (stripStr (upperStr ("VECTOR GRAPH"))) ("VECTOR") = true ∧
    strContains (stripStr (upperStr ("VECTOR GRAPH"))) ("GRAPH") = true ∧
    route ("VECTOR GRAPH") = Route.VECTOR ∧
    Route.VECTOR ≠ Route.UNKNOWN := by
  refine ⟨by decide, by decide, by decide, by decide⟩

/-- C2 (amended): route returns UNKNOWN exactly when the upper-cased, stripped
classifier response contains neither the VECTOR token nor the GRAPH token (a
response containing both yields VECTOR, since the VECTOR test comes first);
and whenever the route is UNKNOWN, the engine answers with the fixed
clarification string, makes no retrieval call, and raises no exception. -/
theorem C2_router_unknown_fallback :
    (∀ d : String,
      route d = Route.UNKNOWN ↔
        (strContains (stripStr (upperStr d)) ("VECTOR")) = false ∧
        (strContains (stripStr (upperStr d)) ("GRAPH")) = false) ∧
    (∀ (o : EngineOracles) (flag : Bool) (q : String),
      routeD o q = Route.UNKNOWN →
        answer o flag q = Except.ok (clarificationMsg, [ECall.genText]) ∧
        ∀ s log, answer o flag q = Except.ok (s, log) →
          ECall.vretrieveC ∉ log ∧ ECall.gqueryC ∉ log) := by
  constructor
  · intro d
    unfold route
    rcases h1 : strContains (stripStr (upperStr d)) ("VECTOR")
    · rcases h2 : strContains (stripStr (upperStr d)) ("GRAPH")
      · simp [h1, h2]
      · simp [h1, h2]
    · simp [h1]
  · intro o flag q hr
    have hl : (generateText o.gen (routerPrompt q)).2 = [ECall.genText] := by
      unfold generateText
      rcases o.gen (routerPrompt q) <;> rfl
    constructor
    · unfold answer
      rw [hr, hl]
    · intro s log hlog
      unfold answer at hlog
      rw [hr, hl] at hlog
      have : log = [ECall.genText] := by
        injection hlog with h
        exact ((Prod.mk.injEq _ _ _ _ ▸ h).2).symm
      subst this
      exact ⟨by decide, by decide⟩

/-- C2 witness: concrete oracles whose classifier answer contains neither
token; the engine returns the clarification string with no retrieval call. -/
theorem C2_router_unknown_fallback_witness :
    answer ⟨fun _ => Except.ok ("NI IDEA"), fun _ => Except.ok [],
        fun _ => Except.ok ("", "")⟩ false ("hola") =
      Except.ok (clarificationMsg, [ECall.genText]) := by
  exact (C2_router_unknown_fallback.2
    ⟨fun _ => Except.ok ("NI IDEA"), fun _ => Except.ok [], fun _ => Except.ok ("", "")⟩
    false ("hola") (by decide)).1

/-- C9: for every combination of oracle outcomes (including failures of the
router call, the generation call, the vector retrieval and the graph query)
and every self-RAG setting, RAGEngine.answer returns a string answer and never
propagates an exception to the caller. -/
theorem C9_answer_total (o : EngineOracles) (flag : Bool) (q : String) :
    ∃ s log, answer o flag q = Except.ok (s, log) := by
  unfold answer
  rcases routeD o q <;> exact ⟨_, _, rfl⟩

/-- C10: register_file requires its metadata argument: with metadata = None it
raises (attribute access on None); with a dictionary it stores under the path
exactly the record of the three keys (hash, processed_at defaulting to the
empty string, chunks_count defaulting to 0), leaves every other path
untouched, and persists synchronously. -/
theorem C10_registerFile_spec (st : RegState) (name hash : String) :
    (registerFile st name hash none = Except.error ()) ∧
    (∀ m : RegMeta, ∃ st',
      registerFile st name hash (some m) = Except.ok (st', true) ∧
      regLookup st' name = some
        { hash := hash
          processed_at := m.processed_at.getD ""
          chunks_count := m.chunks_count.getD 0 } ∧
      ∀ other : String, other ≠ name → regLookup st' other = regLookup st other) := by
  refine ⟨rfl, fun m => ⟨_, rfl, ?_, ?_⟩⟩
  · induction st with
    | nil => simp [regSet, regLookup]
    | cons p t ih =>
      by_cases h : p.1 = name
      · simp [regSet, h, regLookup]
      · simp only [regSet, if_neg h]
        simp only [regLookup, List.find?_cons] at ih ⊢
        have : (p.1 == name) = false := by simp [h]
        rw [this]
        exact ih
  · intro other hne
    have hno : (name == other) = false := beq_eq_false_iff_ne.mpr (Ne.symm hne)
    induction st with
    | nil =>
      simp only [regSet, regLookup, List.find?, hno]
    | cons p t ih =>
      by_cases h : p.1 = name
      · simp only [regSet, if_pos h]
        have h2 : (p.1 == other) = false := by rw [h]; exact hno
        simp only [regLookup, List.find?_cons, hno, h2]
      · simp only [regSet, if_neg h]
        simp only [regLookup, List.find?_cons] at ih ⊢
        rcases hpo : (p.1 == other) with _ | _
        · simp only [hpo] at ih ⊢
          exact ih
        · simp only [hpo]

/-- C10 witness: a concrete call without metadata raises, and a concrete call
with metadata stores the fully defaulted record. -/
theorem C10_registerFile_witness :
    registerFile [] ("a.md") ("h1") none = Except.error () ∧
    ∃ st', registerFile [] ("a.md") ("h1") (some ⟨none, some 3⟩) =
        Except.ok (st', true) ∧
      regLookup st' ("a.md") = some ⟨"h1", "", 3⟩ ∧
      ∀ other : String, other ≠ "a.md" → regLookup st' other = regLookup [] other := by
  exact ⟨(C10_registerFile_spec [] ("a.md") ("h1")).1,
    (C10_registerFile_spec [] ("a.md") ("h1")).2 ⟨none, some 3⟩⟩

/-- C3: a fragment whose extraction fails with a quota/rate-limit signal on
every attempt is retried with backoff delays of 30 seconds times the attempt
count (30, 60, 90), for at most 3 attempts, and then gives up silently: the
fragment returns 0 (zero graph data) and, in the per-file aggregation, the
failing fragment contributes nothing while sibling fragments are unaffected
and the file is not aborted. -/
theorem C3_rate_limit_retry (step : ChunkStep)
    (hfail : ∀ i, i < 3 → ∃ msg, step i = Except.error msg ∧ classifyError msg = ErrKind.rate) :
    processChunkGraph step = (0, [30 * 1, 30 * 2, 30 * 3]) ∧
    (∀ pre post : List ChunkStep,
      chunksWithGraph (pre ++ step :: post) = chunksWithGraph pre + chunksWithGraph post) := by
  have h0 := hfail 0 (by decide)
  have h1 := hfail 1 (by decide)
  have h2 := hfail 2 (by decide)
  obtain ⟨m0, hs0, hc0⟩ := h0
  obtain ⟨m1, hs1, hc1⟩ := h1
  obtain ⟨m2, hs2, hc2⟩ := h2
  have hrun : processChunkGraph step = (0, [30 * 1, 30 * 2, 30 * 3]) := by
    unfold processChunkGraph
    unfold processChunkLoop
    rw [hs0]
    dsimp only
    rw [hc0]
    dsimp only
    unfold processChunkLoop
    rw [hs1]
    dsimp only
    rw [hc1]
    dsimp only
    unfold processChunkLoop
    rw [hs2]
    dsimp only
    rw [hc2]
    rfl
  refine ⟨hrun, fun pre post => ?_⟩
  unfold chunksWithGraph
  rw [List.map_append, List.map_cons, List.sum_append, List.sum_cons, hrun]
  simp

/-- C3 witness: an oracle that raises a 429 quota error on every attempt. -/
theorem C3_rate_limit_retry_witness :
    processChunkGraph (fun _ => Except.error ("429 Too Many Requests")) =
      (0, [30 * 1, 30 * 2, 30 * 3]) := by
  exact (C3_rate_limit_retry (fun _ => Except.error ("429 Too Many Requests"))
    (fun i _ => ⟨"429 Too Many Requests", rfl, by decide⟩)).1

/-- With a succeeding dedup read the fallible model coincides with
enrichNode. -/
theorem enrichNodeE_read_ok (embedQ : String → List ℚ) (ratioFn : String → String → ℚ)
    (st : Option NodeState) (id : String) (newDef : Option String) (asig : String) :
    enrichNodeE embedQ ratioFn false st id newDef asig =
      enrichNode embedQ ratioFn st id newDef asig := rfl

/-- C4 counterexample: when the guarded dedup read fails (the except branch of
ingest.py lines 217-229 is pass), should_append stays True, so a new
definition whose similarity ratio with the stored segment is 0.9 (above the
0.85 threshold) is appended anyway and the stored definition's segment count
increases by one. -/
theorem C4_dedup_read_fail_counterexample :
    mkRat 9 10 > defDupThreshold ∧
    enrichNodeE (fun _ => ([] : List ℚ)) (fun _ _ => mkRat 9 10) true
        (some ⟨some "AAA", [], some "g"⟩) ("X") (some "BBB") ("g") =
      some ⟨some "AAA | BBB", [], some "g"⟩ ∧
    segCount (some "AAA | BBB") = segCount (some "AAA") + 1 := by
  exact ⟨by decide, by decide, by decide⟩

/-- C4 (amended): for every write of a new definition to an existing node in
which the guarded dedup read succeeds, a new definition whose similarity ratio
with some existing stored segment strictly exceeds 0.85 is treated as
redundant and not appended, so the stored definition (and its segment count)
is unchanged; when the read fails, the append happens regardless of
similarity. -/
theorem C4_definition_dedup (ratioFn : String → String → ℚ) (embedQ : String → List ℚ)
    (readFails : Bool) (s0 : NodeState) (id nd asig d : String)
    (hread : readFails = false)
    (hdef : s0.definition = some d) (hne : d ≠ "") (hnd : nd ≠ "")
    (hsim : (splitSegs d).any
      (fun seg => decide (ratioFn nd (stripStr seg) > defDupThreshold)) = true) :
    ∃ st', enrichNodeE embedQ ratioFn readFails (some s0) id (some nd) asig = some st' ∧
      st'.definition = some d ∧
      segCount st'.definition = segCount s0.definition := by
  subst hread
  have htr : truthyStr (some nd) = true := by
    simp [truthyStr, hnd]
  have hdeq : (d == "") = false := by simp [hne]
  have hsa : computeShouldAppend ratioFn ((some s0).bind (fun s => s.definition)) nd
      = false := by
    simp only [Option.bind_eq_bind, Option.some_bind, hdef, computeShouldAppend]
    rw [if_neg (by simp [hne])]
    simp [hsim]
  refine ⟨mergeWrite (some s0) nd (embedQ (id ++ ": " ++ nd)) asig false, ?_, ?_, ?_⟩
  · simp only [enrichNodeE, htr, if_true, Option.getD_some, Bool.false_eq_true,
      if_false, hsa]
  · simp only [mergeWrite, hdef, hdeq, Bool.false_and, if_false]
    simp
  · simp only [mergeWrite, hdef, hdeq, Bool.false_and, if_false]
    simp [hdef]

/-- C4 witness: with a succeeding read, a similarity oracle answering 0.9
makes the write of a second definition a no-op on the stored definition. -/
theorem C4_definition_dedup_witness :
    ∃ st', enrichNodeE (fun _ => ([] : List ℚ)) (fun _ _ => mkRat 9 10) false
        (some ⟨some "AAA", [], some "g"⟩) ("X") (some "BBB") ("g") = some st' ∧
      st'.definition = some "AAA" ∧
      segCount st'.definition = segCount (some "AAA") := by
  exact C4_definition_dedup (fun _ _ => mkRat 9 10) (fun _ => ([] : List ℚ)) false
    ⟨some "AAA", [], some "g"⟩ ("X") ("BBB") ("g") ("AAA")
    rfl rfl (by decide) (by decide) (by decide)

/-- C6 counterexample: a node holding definition Alpha receives the new,
dissimilar definition Beta; the stored definition becomes the appended
Alpha, separator, Beta, but the embedding written in the same query is
computed from id, colon, Beta alone — so after the write the index embedding
is not consistent with the latest stored definition text. -/
theorem C6_embedding_refresh_counterexample :
    ∃ st', enrichNode (fun s => if s = "n: Beta" then [1] else [0]) (fun _ _ => (0 : ℚ))
        (some ⟨some "Alpha", [0], some "g"⟩) ("n") (some "Beta") ("g") = some st' ∧
      st'.definition = some "Alpha | Beta" ∧
      st'.embedding = [1] ∧
      ¬ embConsistent (fun s => if s = "n: Beta" then [1] else [0]) ("n") st' := by
  refine ⟨⟨some "Alpha | Beta", [1], some "g"⟩, by decide, rfl, rfl, ?_⟩
  rintro ⟨d, hd, he⟩
  injection hd with h
  subst h
  revert he
  decide

/-- C6 (amended): whenever a fragment extracts a (non-empty) definition for a
node, the write recomputes the embedding from the text id, colon, new
definition — the definition of this fragment, not the accumulated stored one —
and when the write creates the node (or the node had no prior definition) the
stored embedding is consistent with the stored definition; when the new
definition is appended to an existing one, or deduplicated away, the stored
embedding still reflects only the new fragment definition.  When the fragment
extracts no definition these lines perform no merge-write at all. -/
theorem C6_embedding_refresh (embedQ : String → List ℚ) (ratioFn : String → String → ℚ)
    (st : Option NodeState) (id nd asig : String) (hnd : nd ≠ "") :
    (∃ st', enrichNode embedQ ratioFn st id (some nd) asig = some st' ∧
      st'.embedding = embedQ (id ++ ": " ++ nd) ∧
      (st = none → st'.definition = some nd ∧ embConsistent embedQ id st')) ∧
    enrichNode embedQ ratioFn st id none asig = st := by
  have htr : truthyStr (some nd) = true := by
    simp [truthyStr, hnd]
  have hemb : ∀ (st0 : Option NodeState) (e : List ℚ) (sa : Bool),
      (mergeWrite st0 nd e asig sa).embedding = e := by
    intro st0 e sa
    cases st0 <;> rfl
  constructor
  · refine ⟨mergeWrite st nd (embedQ (id ++ ": " ++ nd)) asig
      (computeShouldAppend ratioFn (st.bind (fun s => s.definition)) nd), ?_, ?_, ?_⟩
    · simp only [enrichNode, htr, if_true, Option.getD_some]
    · exact hemb st _ _
    · intro hstn
      subst hstn
      exact ⟨rfl, nd, rfl, rfl⟩
  · simp [enrichNode, truthyStr]

/-- C6 witness: creating a fresh node stores the new definition and an
embedding consistent with it. -/
theorem C6_embedding_refresh_witness :
    ∃ st', enrichNode (fun s => [(s.length : ℚ)]) (fun _ _ => (0 : ℚ))
        none ("Scrum") (some "marco de trabajo") ("g") = some st' ∧
      st'.embedding = (fun s : String => [(s.length : ℚ)]) ("Scrum" ++ ": " ++ "marco de trabajo") ∧
      (none = (none : Option NodeState) → st'.definition = some "marco de trabajo" ∧
        embConsistent (fun s => [(s.length : ℚ)]) ("Scrum") st') := by
  exact (C6_embedding_refresh (fun s => [(s.length : ℚ)]) (fun _ _ => (0 : ℚ))
    none ("Scrum") ("marco de trabajo") ("g") (by decide)).1

/-- Every step produced by stepsFrom carries a whitelisted relationship that
exists in the graph. -/
theorem mem_stepsFrom {edges : List Edge} {x : String} {s : Edge × String}
    (h : s ∈ stepsFrom edges x) : s.1.typ ∈ semanticRels ∧ s.1 ∈ edges := by
  rw [stepsFrom, List.mem_flatMap] at h
  obtain ⟨e, he, hs⟩ := h
  by_cases ht : e.typ ∈ semanticRels
  · rw [if_pos ht, List.mem_append] at hs
    have hse : s.1 = e := by
      rcases hs with hs | hs
      · by_cases h1 : e.src = x
        · rw [if_pos h1, List.mem_singleton] at hs
          rw [hs]
        · rw [if_neg h1] at hs
          exact absurd hs (List.not_mem_nil s)
      · by_cases h1 : e.tgt = x
        · rw [if_pos h1, List.mem_singleton] at hs
          rw [hs]
        · rw [if_neg h1] at hs
          exact absurd hs (List.not_mem_nil s)
    rw [hse]
    exact ⟨ht, he⟩
  · rw [if_neg ht] at hs
    exact absurd hs (List.not_mem_nil s)

/-- Every path from an anchor has one or two hops and only whitelisted
relationships. -/
theorem mem_pathsFromAnchor {edges : List Edge} {n : String} {p : List Edge}
    (hp : p ∈ pathsFromAnchor edges n) :
    (p.length = 1 ∨ p.length = 2) ∧ ∀ e ∈ p, e.typ ∈ semanticRels := by
  rw [pathsFromAnchor, List.mem_flatMap] at hp
  obtain ⟨s, hsmem, hp⟩ := hp
  rw [List.mem_append] at hp
  rcases hp with hp | hp
  · by_cases h1 : n ≠ s.2
    · rw [if_pos h1, List.mem_singleton] at hp
      subst hp
      refine ⟨Or.inl rfl, fun e hee => ?_⟩
      rw [List.mem_singleton] at hee
      subst hee
      exact (mem_stepsFrom hsmem).1
    · rw [if_neg h1] at hp
      exact absurd hp (List.not_mem_nil p)
  · rw [List.mem_flatMap] at hp
    obtain ⟨s2, hs2mem, hp⟩ := hp
    by_cases h2 : s2.1 ≠ s.1 ∧ n ≠ s2.2
    · rw [if_pos h2, List.mem_singleton] at hp
      subst hp
      refine ⟨Or.inr rfl, fun e hee => ?_⟩
      rw [List.mem_cons, List.mem_singleton] at hee
      rcases hee with hee | hee
      · subst hee
        exact (mem_stepsFrom hsmem).1
      · subst hee
        exact (mem_stepsFrom hs2mem).1
    · rw [if_neg h2] at hp
      exact absurd hp (List.not_mem_nil p)

/-- C5: the traversal considers at most 100 paths, each of 1 or 2 hops; every
returned triple has a relationship type in the semantic whitelist; the
provenance relation MENCIONADO_EN never appears among returned triples; and
the returned triples are deduplicated. -/
theorem C5_traversal_spec (nodes : List String) (edges : List Edge)
    (anchorNames : List String) :
    (consideredPaths nodes edges anchorNames).length ≤ 100 ∧
    (∀ p ∈ consideredPaths nodes edges anchorNames, 1 ≤ p.length ∧ p.length ≤ 2) ∧
    (∀ t ∈ traverseGraph nodes edges anchorNames, t.typ ∈ semanticRels) ∧
    (∀ t ∈ traverseGraph nodes edges anchorNames, t.typ ≠ "MENCIONADO_EN") ∧
    (traverseGraph nodes edges anchorNames).Nodup := by
  have hpath : ∀ p ∈ consideredPaths nodes edges anchorNames,
      (p.length = 1 ∨ p.length = 2) ∧ ∀ e ∈ p, e.typ ∈ semanticRels := by
    intro p hp
    have hp2 := List.take_subset 100 _ hp
    rw [List.mem_flatMap] at hp2
    obtain ⟨n, _, hpn⟩ := hp2
    exact mem_pathsFromAnchor hpn
  have htyp : ∀ t ∈ traverseGraph nodes edges anchorNames, t.typ ∈ semanticRels := by
    intro t ht
    rw [traverseGraph] at ht
    by_cases ha : anchorNames = []
    · rw [if_pos ha] at ht
      exact absurd ht (List.not_mem_nil t)
    · rw [if_neg ha, List.mem_dedup, List.mem_flatMap] at ht
      obtain ⟨p, hp, htp⟩ := ht
      exact (hpath p hp).2 t htp
  refine ⟨List.length_take_le 100 _, ?_, htyp, ?_, ?_⟩
  · intro p hp
    rcases (hpath p hp).1 with h | h <;> rw [h] <;> omega
  · intro t ht heq
    have := htyp t ht
    rw [heq] at this
    revert this
    decide
  · rw [traverseGraph]
    by_cases ha : anchorNames = []
    · rw [if_pos ha]
      exact List.nodup_nil
    · rw [if_neg ha]
      exact List.nodup_dedup _

/-- C5 witness: a small graph with one semantic USA edge and one provenance
MENCIONADO_EN edge; the USA triple is returned from the Scrum anchor and obeys
every conjunct. -/
theorem C5_traversal_spec_witness :
    (⟨"Scrum", "USA", "Sprint"⟩ : Edge) ∈
      traverseGraph ["Scrum", "Sprint", "doc1"]
        [⟨"Scrum", "USA", "Sprint"⟩, ⟨"Scrum", "MENCIONADO_EN", "doc1"⟩] ["Scrum"] ∧
    (⟨"Scrum", "MENCIONADO_EN", "doc1"⟩ : Edge) ∉
      traverseGraph ["Scrum", "Sprint", "doc1"]
        [⟨"Scrum", "USA", "Sprint"⟩, ⟨"Scrum", "MENCIONADO_EN", "doc1"⟩] ["Scrum"] ∧
    (⟨"Scrum", "USA", "Sprint"⟩ : Edge).typ ∈ semanticRels ∧
    (⟨"Scrum", "USA", "Sprint"⟩ : Edge).typ ≠ "MENCIONADO_EN" ∧
    (traverseGraph ["Scrum", "Sprint", "doc1"]
        [⟨"Scrum", "USA", "Sprint"⟩, ⟨"Scrum", "MENCIONADO_EN", "doc1"⟩] ["Scrum"]).Nodup := by
  refine ⟨by decide, by decide, ?_, ?_, ?_⟩
  · exact (C5_traversal_spec ["Scrum", "Sprint", "doc1"]
      [⟨"Scrum", "USA", "Sprint"⟩, ⟨"Scrum", "MENCIONADO_EN", "doc1"⟩] ["Scrum"]).2.2.1
      _ (by decide)
  · exact (C5_traversal_spec ["Scrum", "Sprint", "doc1"]
      [⟨"Scrum", "USA", "Sprint"⟩, ⟨"Scrum", "MENCIONADO_EN", "doc1"⟩] ["Scrum"]).2.2.2.1
      _ (by decide)
  · exact (C5_traversal_spec ["Scrum", "Sprint", "doc1"]
      [⟨"Scrum", "USA", "Sprint"⟩, ⟨"Scrum", "MENCIONADO_EN", "doc1"⟩] ["Scrum"]).2.2.2.2

/-- C8: for a pair of same-label node ids whose similarity ratio is above the
85 threshold and whose semantic check answers yes, the resolver merges the two
nodes: the node with the (strictly) shorter id is retained as canonical, the
duplicate node and its own properties are dropped from the graph, and every
relationship endpoint at the duplicate is re-pointed to the canonical node. -/
theorem C8_entity_merge (fr : String → String → Nat)
    (validate : String → String → String → Bool) (g : ResGraph) (a b label : String)
    (hr : fr (lowerStr a) (lowerStr b) > 85) (hv : validate a b label = true)
    (hlen : a.length < b.length)
    (ha : (g.nodes.any (fun n => n.id == a)) = true)
    (hb : (g.nodes.any (fun n => n.id == b)) = true) :
    resolvePair fr validate 85 g a b label = mergeNodes g a b ∧
    (∀ n ∈ (mergeNodes g a b).nodes, n.id ≠ b) ∧
    (∀ n ∈ g.nodes, n.id ≠ b → n ∈ (mergeNodes g a b).nodes) ∧
    (mergeNodes g a b).rels = g.rels.map (reAim a b) ∧
    (∀ e ∈ (mergeNodes g a b).rels, e.src ≠ b ∧ e.tgt ≠ b) := by
  have hguard : ((g.nodes.any (fun n => n.id == a)) && (g.nodes.any (fun n => n.id == b)))
      = true := by
    rw [ha, hb]
    rfl
  have hmerge : mergeNodes g a b =
      { nodes := g.nodes.filter (fun n => !(n.id == b)),
        rels := g.rels.map (reAim a b) } := by
    rw [mergeNodes, if_pos hguard]
  refine ⟨?_, ?_, ?_, ?_, ?_⟩
  · rw [resolvePair, if_pos hr, if_pos hv]
    simp only [if_pos (Nat.le_of_lt hlen)]
    simp
  · intro n hn
    rw [hmerge] at hn
    have := (List.mem_filter.mp hn).2
    simpa using this
  · intro n hn hnb
    rw [hmerge]
    refine List.mem_filter.mpr ⟨hn, ?_⟩
    simpa using hnb
  · rw [hmerge]
  · intro e he
    rw [hmerge] at he
    rw [List.mem_map] at he
    obtain ⟨e0, _, he0⟩ := he
    have hab : a ≠ b := by
      intro h
      rw [h] at hlen
      exact Nat.lt_irrefl _ hlen
    subst he0
    constructor
    · by_cases h1 : e0.src = b
      · simpa [reAim, h1] using hab
      · simp [reAim, h1]
    · by_cases h1 : e0.tgt = b
      · simpa [reAim, h1] using hab
      · simp [reAim, h1]

/-- C8 witness: the Unit Test / Prueba Unitaria scenario with a forced yes
from the semantic check; the shorter id Unit Test is retained and the
relationship of the duplicate is re-pointed to it. -/
theorem C8_entity_merge_witness :
    resolvePair (fun _ _ => 90) (fun _ _ _ => true) 85
        ⟨[⟨"Unit Test", "ConceptoTecnico", []⟩, ⟨"Prueba Unitaria", "ConceptoTecnico", []⟩],
         [⟨"Prueba Unitaria", "ASOCIADO_A", "TDD"⟩]⟩
        ("Unit Test") ("Prueba Unitaria") ("ConceptoTecnico") =
      mergeNodes
        ⟨[⟨"Unit Test", "ConceptoTecnico", []⟩, ⟨"Prueba Unitaria", "ConceptoTecnico", []⟩],
         [⟨"Prueba Unitaria", "ASOCIADO_A", "TDD"⟩]⟩
        ("Unit Test") ("Prueba Unitaria") ∧
    (mergeNodes
        ⟨[⟨"Unit Test", "ConceptoTecnico", []⟩, ⟨"Prueba Unitaria", "ConceptoTecnico", []⟩],
         [⟨"Prueba Unitaria", "ASOCIADO_A", "TDD"⟩]⟩
        ("Unit Test") ("Prueba Unitaria")).rels =
      [⟨"Prueba Unitaria", "ASOCIADO_A", "TDD"⟩].map (reAim ("Unit Test") ("Prueba Unitaria")) := by
  refine ⟨(C8_entity_merge (fun _ _ => 90) (fun _ _ _ => true) _ _ _ ("ConceptoTecnico")
    (by decide) rfl (by decide) (by decide) (by decide)).1,
    (C8_entity_merge (fun _ _ => 90) (fun _ _ _ => true) _ _ _ ("ConceptoTecnico")
    (by decide) rfl (by decide) (by decide) (by decide)).2.2.2.1⟩

/-- Every pair produced by the scoring loop belongs to the input and carries a
score computed from the stored or fallback embedding of its target. -/
theorem scoreTriples_mem (embed : String → Except Unit (List ℚ)) (qe : List ℚ) :
    ∀ (ts : List Triple) (scored : List (ℚ × Triple)),
      scoreTriples embed qe ts = Except.ok scored →
      ∀ p ∈ scored, p.2 ∈ ts ∧ scoreMatches embed qe p.2 p.1 := by
  intro ts
  induction ts with
  | nil =>
    intro scored hs p hp
    rw [scoreTriples] at hs
    injection hs with hs
    subst hs
    exact absurd hp (List.not_mem_nil p)
  | cons t ts ih =>
    intro scored hs p hp
    rw [scoreTriples] at hs
    split at hs
    · rename_i te hte
      split at hs
      · rename_i rest hrest
        injection hs with hs
        subst hs
        rcases List.mem_cons.mp hp with hp | hp
        · subst hp
          exact ⟨List.mem_cons_self t ts, Or.inl ⟨te, hte, rfl⟩⟩
        · have h2 := ih rest hrest p hp
          exact ⟨List.mem_cons_of_mem t h2.1, h2.2⟩
      · exact absurd hs (by simp)
    · rename_i hte
      split at hs
      · have h2 := ih scored hs p hp
        exact ⟨List.mem_cons_of_mem t h2.1, h2.2⟩
      · rename_i txt htx
        split at hs
        · rename_i te hem
          split at hs
          · rename_i rest hrest
            injection hs with hs
            subst hs
            rcases List.mem_cons.mp hp with hp | hp
            · subst hp
              exact ⟨List.mem_cons_self t ts, Or.inr ⟨hte, txt, te, htx, hem, rfl⟩⟩
            · have h2 := ih rest hrest p hp
              exact ⟨List.mem_cons_of_mem t h2.1, h2.2⟩
          · exact absurd hs (by simp)
        · exact absurd hs (by simp)

/-- C7 (amended): the pruning stage keeps at most topN triples, all drawn from
the input; on success it returns the triples of a descending-sorted scored
list whose scores come from the stored or fallback target embeddings; and if
any similarity computation fails, the whole stage falls back to the first topN
input triples, unsorted and unscored — the retrieval is not dropped, but a
failing triple survives only if it lies in that prefix. -/
theorem C7_prune_spec (embed : String → Except Unit (List ℚ)) (q : String)
    (ts : List Triple) (topN : Nat) :
    (pruneByRelevance embed q ts topN).length ≤ topN ∧
    (∀ t ∈ pruneByRelevance embed q ts topN, t ∈ ts) ∧
    ((pruneScored embed q ts).isOk = false →
      pruneByRelevance embed q ts topN = ts.take topN) ∧
    (∀ qe scored, embed q = Except.ok qe → scoreTriples embed qe ts = Except.ok scored →
      ∃ ranked : List (ℚ × Triple),
        ranked.Pairwise (fun a b => b.1 ≤ a.1) ∧
        pruneByRelevance embed q ts topN = ranked.map (fun p => p.2) ∧
        ranked.length ≤ topN ∧
        ∀ p ∈ ranked, p.2 ∈ ts ∧ scoreMatches embed qe p.2 p.1) := by
  haveI : IsTotal (ℚ × Triple) (fun a b => b.1 ≤ a.1) := ⟨fun a b => le_total b.1 a.1⟩
  haveI : IsTrans (ℚ × Triple) (fun a b => b.1 ≤ a.1) :=
    ⟨fun a b c hab hbc => le_trans hbc hab⟩
  refine ⟨?_, ?_, ?_, ?_⟩
  · rw [pruneByRelevance]
    rcases hps : pruneScored embed q ts with e | scored
    · exact List.length_take_le topN ts
    · rw [List.length_map]
      exact List.length_take_le topN _
  · intro t ht
    rw [pruneByRelevance] at ht
    rcases hps : pruneScored embed q ts with e | scored
    · rw [hps] at ht
      exact List.take_subset topN ts ht
    · rw [hps] at ht
      rw [List.mem_map] at ht
      obtain ⟨p, hp, hpt⟩ := ht
      have hp2 := List.take_subset topN _ hp
      rw [List.mem_insertionSort] at hp2
      rw [pruneScored] at hps
      rcases hqe : embed q with e | qe
      · rw [hqe] at hps
        exact absurd hps (by simp)
      · rw [hqe] at hps
        have := (scoreTriples_mem embed qe ts scored hps p hp2).1
        rw [hpt] at this
        exact this
  · intro hfail
    rw [pruneByRelevance]
    rcases hps : pruneScored embed q ts with e | scored
    · rfl
    · rw [hps] at hfail
      exact absurd hfail (by simp [Except.isOk, Except.toBool])
  · intro qe scored hqe hsc
    have hps : pruneScored embed q ts = Except.ok scored := by
      rw [pruneScored, hqe]
      exact hsc
    refine ⟨(List.insertionSort (fun a b : ℚ × Triple => b.1 ≤ a.1) scored).take topN,
      ?_, ?_, ?_, ?_⟩
    · exact List.Pairwise.sublist (List.take_sublist topN _)
        (List.sorted_insertionSort _ scored)
    · rw [pruneByRelevance, hps]
    · rw [List.length_take]
      exact Nat.min_le_left _ _
    · intro p hp
      have hp2 := List.take_subset topN _ hp
      rw [List.mem_insertionSort] at hp2
      exact scoreTriples_mem embed qe ts scored hsc p hp2

/-- C7 counterexample: the similarity computation fails for the sixteenth
triple (its fallback-text embedding raises), and the pruning stage returns the
first fifteen triples of the input — the failing triple is not included, so a
triple whose similarity computation fails is not in general included unscored. -/
theorem C7_prune_counterexample :
    c7Bad ∈ c7Ts ∧
    targetEmbOf c7Bad = none ∧
    fbTextOf c7Bad = some ("bad d") ∧
    c7Embed ("bad d") = Except.error () ∧
    pruneScored c7Embed ("q") c7Ts = Except.error () ∧
    pruneByRelevance c7Embed ("q") c7Ts 15 = c7Ts.take 15 ∧
    c7Bad ∉ pruneByRelevance c7Embed ("q") c7Ts 15 := by
  refine ⟨by decide, by decide, by decide, rfl, rfl, by decide, by decide⟩

/-- C7 witness: the amended theorem applied at the concrete failing input,
with the fallback antecedent discharged. -/
theorem C7_prune_spec_witness :
    (pruneByRelevance c7Embed ("q") c7Ts 15).length ≤ 15 ∧
    pruneByRelevance c7Embed ("q") c7Ts 15 = c7Ts.take 15 := by
  exact ⟨(C7_prune_spec c7Embed ("q") c7Ts 15).1,
    (C7_prune_spec c7Embed ("q") c7Ts 15).2.2.1 (by decide)⟩

/-- The dot product of a vector with itself is nonnegative. -/
theorem dotQ_self_nonneg (u : List ℚ) : 0 ≤ dotQ u u := by
  rw [dotQ]
  induction u with
  | nil => simp
  | cons a t ih =>
    rw [List.zipWith_cons_cons, List.sum_cons]
    exact add_nonneg (mul_self_nonneg a) ih

/-- qdiv agrees with rational division. -/
theorem qdiv_eq_div (a b : ℚ) : qdiv a b = a / b := by
  by_cases hb : b = 0
  · subst hb
    rw [qdiv]
    simp
  · have hbn : (b.num : ℚ) ≠ 0 := by
      exact_mod_cast Rat.num_ne_zero.mpr hb
    have had : (a.den : ℚ) ≠ 0 := by
      exact_mod_cast a.den_nz
    have hbd : (b.den : ℚ) ≠ 0 := by
      exact_mod_cast b.den_nz
    rw [qdiv, Rat.divInt_eq_div]
    push_cast
    rw [div_eq_div_iff (mul_ne_zero had hbn) hb]
    have ha1 : (a.num : ℚ) = a * a.den := (div_eq_iff had).mp (Rat.num_div_den a)
    have hb1 : (b.num : ℚ) = b * b.den := (div_eq_iff hbd).mp (Rat.num_div_den b)
    rw [ha1, hb1]
    ring

/-- The exact rational square root of a square of a nonnegative rational. -/
theorem ratSqrt_mul_self (a : ℚ) (h : 0 ≤ a) : ratSqrt (a * a) = a := by
  have hnum : (a * a).num.toNat = a.num.natAbs * a.num.natAbs := by
    rw [Rat.mul_self_num, ← Int.natAbs_mul_self, Int.toNat_natCast]
  rw [ratSqrt, hnum, Rat.mul_self_den, Nat.sqrt_eq, Nat.sqrt_eq]
  have hna : ((a.num.natAbs : ℤ) : ℚ) = (a.num : ℚ) := by
    rw [Int.natAbs_of_nonneg (Rat.num_nonneg.mpr h)]
  calc Rat.divInt (a.num.natAbs : ℤ) (a.den : ℤ)
      = Rat.divInt a.num (a.den : ℤ) := by
        rw [Int.natAbs_of_nonneg (Rat.num_nonneg.mpr h)]
    _ = a := Rat.num_divInt_den a

/-- Querying the modelled index with a node's own (nonzero) embedding scores
that node at exactly 1. -/
theorem neoScore_self (e : List ℚ) (h : dotQ e e ≠ 0) : neoScore e e = 1 := by
  have hnn := dotQ_self_nonneg e
  rw [neoScore, if_neg (mul_ne_zero h h), ratSqrt_mul_self _ hnn, qdiv_eq_div,
    qdiv_eq_div, div_self h]
  norm_num

/-- The anchor threshold lies strictly below the self-similarity score 1. -/
theorem anchorThreshold_lt_one : anchorThreshold < 1 := by
  rw [anchorThreshold]
  norm_num [Rat.mkRat_eq_div]

/-- Sums of pointwise sums of naturals split. -/
theorem list_sum_map_add {α : Type} (L : List α) (f g : α → Nat) :
    (L.map (fun x => f x + g x)).sum = (L.map f).sum + (L.map g).sum := by
  induction L with
  | nil => rfl
  | cons x L ih =>
    simp only [List.map_cons, List.sum_cons, ih]
    omega

/-- An absent label contributes nothing to the indicator sum. -/
theorem sum_ite_beq_zero (a : String) (L : List String) (h : a ∉ L) :
    (L.map (fun l => if (a == l) = true then 1 else 0)).sum = 0 := by
  induction L with
  | nil => rfl
  | cons x L ih =>
    simp only [List.map_cons, List.sum_cons]
    have hax : (a == x) = false :=
      beq_eq_false_iff_ne.mpr (fun hh => h (hh ▸ List.mem_cons_self x L))
    rw [hax]
    simp only [Bool.false_eq_true, if_false]
    rw [ih (fun hm => h (List.mem_cons_of_mem x hm))]

/-- Over a duplicate-free label list the indicator sum is at most one. -/
theorem sum_ite_beq_le_one (a : String) (L : List String) (h : L.Nodup) :
    (L.map (fun l => if (a == l) = true then 1 else 0)).sum ≤ 1 := by
  induction L with
  | nil => simp
  | cons x L ih =>
    simp only [List.map_cons, List.sum_cons]
    rcases hax : (a == x) with _ | _
    · rw [if_neg (by decide : ¬ (false = true)), Nat.zero_add]
      exact ih (List.nodup_cons.mp h).2
    · have ha : a = x := eq_of_beq hax
      have hx : x ∉ L := (List.nodup_cons.mp h).1
      rw [if_pos rfl, ha, sum_ite_beq_zero x L hx]

/-- Counting store entries per label over a duplicate-free list of labels is
bounded by the store size (each entry has one label). -/
theorem sum_countP_le (st : List NodeEntry) (L : List String) (hL : L.Nodup) :
    ((L.map (fun l => st.countP (fun n => n.label == l))).sum) ≤ st.length := by
  induction st with
  | nil =>
    simp [List.countP_nil]
  | cons n st ih =>
    have hmap : (L.map (fun l => (n :: st).countP (fun x => x.label == l))) =
        L.map (fun l => st.countP (fun x => x.label == l) +
          if (n.label == l) = true then 1 else 0) := by
      exact List.map_congr_left (fun l _ => List.countP_cons _ _ _)
    rw [hmap, list_sum_map_add]
    have h2 := sum_ite_beq_le_one n.label L hL
    simp only [List.length_cons]
    omega

/-- Per-label result size of the modelled index is bounded by the number of
store entries under that label. -/
theorem vectorQueryNodes_length_le (store : List NodeEntry) (label : String)
    (emb : List ℚ) (k : Nat) :
    (vectorQueryNodes store label emb k).length ≤
      store.countP (fun n => n.label == label) := by
  rw [vectorQueryNodes, List.length_take, List.countP_eq_length_filter]
  calc min k (List.insertionSort _ ((store.filter (fun n => n.label == label)).map _)).length
      ≤ (List.insertionSort _ ((store.filter (fun n => n.label == label)).map _)).length :=
        Nat.min_le_right _ _
    _ = _ := by rw [List.length_insertionSort, List.length_map]

/-- Against the modelled index the merged candidate list never exceeds the
store size (the four labels are pairwise distinct, so the per-label groups are
disjoint). -/
theorem anchorCandidates_neoVq_length (store : List NodeEntry) (emb : List ℚ)
    (k : Nat) :
    (anchorCandidates (neoVq store) emb k).length ≤ store.length := by
  rw [anchorCandidates, List.length_flatMap]
  have h1 : (List.map (List.length ∘ fun label =>
      (anchorRowsOf (neoVq store) emb k label).filter
        (fun r => decide (anchorThreshold < r.score))) anchorLabels).sum ≤
      (List.map (fun l => store.countP (fun n => n.label == l)) anchorLabels).sum := by
    apply List.sum_le_sum
    intro label _
    calc ((anchorRowsOf (neoVq store) emb k label).filter _).length
        ≤ (anchorRowsOf (neoVq store) emb k label).length :=
          List.length_filter_le _ _
      _ ≤ store.countP (fun n => n.label == label) :=
          vectorQueryNodes_length_le store label emb k
  exact le_trans h1 (sum_countP_le store anchorLabels (by decide))

/-- C1: the anchor search embeds the question exactly once; returns at most k
anchors, all with score strictly above the 0.40 threshold (a row whose score
equals the threshold is excluded), sorted descending by score; candidates
above the threshold from any of the four label queries all appear whenever
they fit into the top-k cut; and against the modelled cosine index a stored
node queried with its own (nonzero) embedding scores above the threshold and
appears in the anchor set (when the store fits in k). -/
theorem C1_anchor_search (embed : String → Except Unit (List ℚ))
    (vq : String → List ℚ → Nat → Except Unit (List AnchorRow))
    (q : String) (k : Nat) :
    ((getAnchors embed vq q k).2.filter isEmbedCall = [RCall.embedCall q]) ∧
    (getAnchors embed vq q k).1.length ≤ k ∧
    (∀ r ∈ (getAnchors embed vq q k).1, anchorThreshold < r.score) ∧
    List.Sorted (fun a b : AnchorRow => b.score ≤ a.score) (getAnchors embed vq q k).1 ∧
    (∀ emb, embed q = Except.ok emb → ∀ label ∈ anchorLabels,
      ∀ r ∈ anchorRowsOf vq emb k label, r.score = anchorThreshold →
        r ∉ (getAnchors embed vq q k).1) ∧
    (∀ emb, embed q = Except.ok emb → (anchorCandidates vq emb k).length ≤ k →
      ∀ r ∈ anchorCandidates vq emb k, r ∈ (getAnchors embed vq q k).1) ∧
    (∀ (store : List NodeEntry) (n : NodeEntry), vq = neoVq store →
      embed q = Except.ok n.embedding → n ∈ store → n.label ∈ anchorLabels →
      dotQ n.embedding n.embedding ≠ 0 → store.length ≤ k →
      ∃ r ∈ (getAnchors embed vq q k).1, r.name = n.name ∧ anchorThreshold < r.score) := by
  haveI : IsTotal AnchorRow (fun a b => b.score ≤ a.score) :=
    ⟨fun a b => le_total b.score a.score⟩
  haveI : IsTrans AnchorRow (fun a b => b.score ≤ a.score) :=
    ⟨fun a b c hab hbc => le_trans hbc hab⟩
  rcases hq : embed q with u | emb
  · have hga : getAnchors embed vq q k = ([], [RCall.embedCall q]) := by
      rw [getAnchors, hq]
    refine ⟨?_, ?_, ?_, ?_, ?_, ?_, ?_⟩
    · rw [hga]
      rfl
    · rw [hga]
      exact Nat.zero_le k
    · rw [hga]
      intro r hr
      exact absurd hr (List.not_mem_nil r)
    · rw [hga]
      exact List.sorted_nil
    · intro emb hemb
      exact absurd hemb (by simp)
    · intro emb hemb
      exact absurd hemb (by simp)
    · intro store n _ hemb
      exact absurd hemb (by simp)
  · have hga : getAnchors embed vq q k =
        ((List.insertionSort (fun a b : AnchorRow => b.score ≤ a.score)
            (anchorCandidates vq emb k)).take k,
          RCall.embedCall q :: anchorLabels.map RCall.vqueryCall) := by
      rw [getAnchors, hq]
    have hscore : ∀ r ∈ (getAnchors embed vq q k).1, anchorThreshold < r.score := by
      intro r hr
      rw [hga] at hr
      have h2 := List.take_subset k _ hr
      rw [List.mem_insertionSort] at h2
      rw [anchorCandidates, List.mem_flatMap] at h2
      obtain ⟨label, _, h3⟩ := h2
      exact of_decide_eq_true (List.mem_filter.mp h3).2
    have hcomplete : ∀ emb2, (Except.ok emb : Except Unit (List ℚ)) = Except.ok emb2 →
        (anchorCandidates vq emb2 k).length ≤ k →
        ∀ r ∈ anchorCandidates vq emb2 k, r ∈ (getAnchors embed vq q k).1 := by
      intro emb2 hemb2 hlen r hr
      injection hemb2 with hemb2
      subst hemb2
      rw [hga]
      have hall : (List.insertionSort (fun a b : AnchorRow => b.score ≤ a.score)
          (anchorCandidates vq emb k)).take k =
          List.insertionSort (fun a b : AnchorRow => b.score ≤ a.score)
            (anchorCandidates vq emb k) := by
        apply List.take_of_length_le
        rw [List.length_insertionSort]
        exact hlen
      rw [hall, List.mem_insertionSort]
      exact hr
    refine ⟨?_, ?_, hscore, ?_, ?_, hcomplete, ?_⟩
    · rw [hga]
      simp only [List.filter_cons]
      rw [List.filter_map]
      have : (fun c => isEmbedCall c) ∘ RCall.vqueryCall = fun _ => false := by
        funext l
        rfl
      rw [this]
      simp [isEmbedCall]
    · rw [hga]
      exact List.length_take_le k _
    · rw [hga]
      exact List.Pairwise.sublist (List.take_sublist k _)
        (List.sorted_insertionSort _ _)
    · intro emb2 hemb2 label hlabel r hrrow hreq hrin
      have := hscore r hrin
      rw [hreq] at this
      exact lt_irrefl _ this
    · intro store n hvq hemb hnstore hnlabel hnz hstorele
      subst hvq
      injection hemb with hemb
      have hrow : (⟨n.name, [n.label], n.defn, neoScore emb n.embedding⟩ : AnchorRow) ∈
          anchorCandidates (neoVq store) emb k := by
        rw [anchorCandidates, List.mem_flatMap]
        refine ⟨n.label, hnlabel, ?_⟩
        rw [List.mem_filter]
        constructor
        · show _ ∈ anchorRowsOf (neoVq store) emb k n.label
          rw [anchorRowsOf]
          show _ ∈ vectorQueryNodes store n.label emb k
          rw [vectorQueryNodes]
          have hbase : (⟨n.name, [n.label], n.defn, neoScore emb n.embedding⟩ : AnchorRow) ∈
              (store.filter (fun m => m.label == n.label)).map
                (fun m => (⟨m.name, [m.label], m.defn, neoScore emb m.embedding⟩ : AnchorRow)) := by
            rw [List.mem_map]
            exact ⟨n, List.mem_filter.mpr ⟨hnstore, by simp⟩, rfl⟩
          have hlenb : ((store.filter (fun m => m.label == n.label)).map
              (fun m => (⟨m.name, [m.label], m.defn, neoScore emb m.embedding⟩ : AnchorRow))).length ≤ k := by
            rw [List.length_map]
            calc (store.filter (fun m => m.label == n.label)).length
                ≤ store.length := List.length_filter_le _ _
              _ ≤ k := hstorele
          rw [List.take_of_length_le (by rw [List.length_insertionSort]; exact hlenb)]
          rw [List.mem_insertionSort]
          exact hbase
        · have hsc : neoScore emb n.embedding = 1 := by
            rw [← hemb]
            rw [← hemb] at hnz
            exact neoScore_self emb hnz
          rw [decide_eq_true_eq, hsc]
          exact anchorThreshold_lt_one
      have hlen2 : (anchorCandidates (neoVq store) emb k).length ≤ k :=
        le_trans (anchorCandidates_neoVq_length store emb k) hstorele
      refine ⟨⟨n.name, [n.label], n.defn, neoScore emb n.embedding⟩,
        hcomplete emb rfl hlen2 _ hrow, rfl, ?_⟩
      have hsc : neoScore emb n.embedding = 1 := by
        rw [← hemb]
        rw [← hemb] at hnz
        exact neoScore_self emb hnz
      rw [hsc]
      exact anchorThreshold_lt_one

/-- C1 witness: a store holding one Metodologia node; querying with the node's
own embedding places the node in the anchor set with score above the
threshold. -/
theorem C1_anchor_search_witness :
    ∃ r ∈ (getAnchors c1Embed (neoVq c1Store) ("que es scrum") 5).1,
      r.name = "Scrum" ∧ anchorThreshold < r.score := by
  exact (C1_anchor_search c1Embed (neoVq c1Store) ("que es scrum") 5).2.2.2.2.2.2
    c1Store ⟨"Scrum", "Metodologia", "Marco de trabajo agil", [1]⟩ rfl rfl
    (by decide) (by decide) (by simp [dotQ]) (by decide)
